import Mathlib

/-!
Shallow embedding of the tracking and unique-detection engine of
`backend/services/video_processor_service.py` (video-analysis-app).

Conventions of the embedding:
* Python floats are modelled as exact rationals (`ℚ`); the one genuinely
  irrational quantity, the Euclidean centre distance returned by
  `scipy.spatial.distance.euclidean`, is modelled as a real number.
* The IEEE value `float('inf')` (initial best score, distance of a track
  with empty history) is modelled by `Option ℝ` with `none` standing for
  `+∞`; `optLt`/`optLe` reproduce the comparisons the code performs.
* `dict` registries (insertion ordered in Python) are modelled as lists;
  `uuid.uuid4()` freshness is modelled by a monotone counter `next_id`.
* Images are modelled by their pixel dimensions (`Image`); pixel contents,
  JPEG/base64 encoding and wall-clock strings are outside the model, so the
  encoder is an abstract parameter `enc : ℕ → ℕ → String` and wall-clock
  timestamp strings are not carried in the records.
* Operations that raise in Python (`ZeroDivisionError`, `cv2.resize` on an
  empty target, numpy shape-mismatch on slice assignment, the two
  precondition checks of `process_video`) are modelled with `Except`.
-/

/-- Bounding box, top-left anchored (`BoundingBox` in `yolov8m_service.py`). -/
structure BoundingBox where
  x : ℚ
  y : ℚ
  width : ℚ
  height : ℚ
deriving DecidableEq

/-- Centre of a box, as computed inline by the source
(`x + width / 2`, `y + height / 2`). -/
def BoundingBox.center (b : BoundingBox) : ℚ × ℚ :=
  (b.x + b.width / 2, b.y + b.height / 2)

/-- One raw detector output (`Detection` in `yolov8m_service.py`). -/
structure Detection where
  class_name : String
  confidence : ℚ
  bbox : BoundingBox
  class_id : ℤ
deriving DecidableEq

/-- Python `xs[-k:]`: the last `k` elements (the whole list when shorter). -/
def takeLast (xs : List α) (k : ℕ) : List α :=
  xs.drop (xs.length - k)

/-- A tracked object (`TrackedObject` dataclass). The opaque `uuid4` id is
modelled as a natural-number token. -/
structure TrackedObject where
  id : ℕ
  class_name : String
  last_seen_frame : ℕ
  track_history : List (ℚ × ℚ) := []
  confidence_history : List ℚ := []
  bbox_history : List (ℚ × ℚ × ℚ × ℚ) := []
  age : ℕ := 0
deriving DecidableEq

/-- `TrackedObject.update`: append centre/confidence/bbox, stamp the frame,
bump the age, then cap all three histories to the last 10 entries when the
position history has grown beyond 10. -/
def TrackedObject.update (t : TrackedObject) (d : Detection) (frame_number : ℕ) :
    TrackedObject :=
  let th := t.track_history ++ [d.bbox.center]
  let ch := t.confidence_history ++ [d.confidence]
  let bh := t.bbox_history ++ [(d.bbox.x, d.bbox.y, d.bbox.width, d.bbox.height)]
  if th.length > 10 then
    { t with
      track_history := takeLast th 10
      confidence_history := takeLast ch 10
      bbox_history := takeLast bh 10
      last_seen_frame := frame_number
      age := t.age + 1 }
  else
    { t with
      track_history := th
      confidence_history := ch
      bbox_history := bh
      last_seen_frame := frame_number
      age := t.age + 1 }

/-- One entry of the model-suggestion list (`{"type": _, "confidence": _}`). -/
structure Suggestion where
  type : String
  confidence : ℚ
deriving DecidableEq

/-- A unique-detection record (`UniqueDetection` dataclass); the wall-clock
`timestamp`/`processed_at` strings are outside the model. -/
structure UniqueDetection where
  id : ℕ
  frame_number : ℕ
  full_frame_image_data : String
  frame_image_data : String
  bbox : BoundingBox
  model_suggestions : List Suggestion
  user_choice : Option String
  is_manual_label : Bool
  is_manual_correction : Bool
deriving DecidableEq

/-- The three constructor parameters of `VideoProcessorService`. -/
structure TrackerConfig where
  iou_threshold : ℚ := 1/2
  distance_threshold : ℚ := 50
  max_missing_frames : ℕ := 10
deriving DecidableEq

/-- The default configuration (`iou_threshold=0.5`, `distance_threshold=50.0`,
`max_missing_frames=10`). -/
def defaultConfig : TrackerConfig := {}

/-- The mutable tracking state of the service: the live-track registry
(`self.tracked_objects`, insertion ordered), the accumulated result list
(`self.unique_detections`) and the fresh-id counter standing for `uuid4`. -/
structure TrackerState where
  tracked_objects : List TrackedObject
  unique_detections : List UniqueDetection
  next_id : ℕ
deriving DecidableEq

/-- `_calculate_iou`: intersection over union of the detection box against the
track's most recent box; `0` when the track has no box history, no overlap, or
a non-positive union. -/
def calculate_iou (d : Detection) (t : TrackedObject) : ℚ :=
  match t.bbox_history.getLast? with
  | none => 0
  | some (tx, ty, tw, th) =>
    let dx1 := d.bbox.x
    let dy1 := d.bbox.y
    let dx2 := dx1 + d.bbox.width
    let dy2 := dy1 + d.bbox.height
    let tx2 := tx + tw
    let ty2 := ty + th
    let ix1 := max dx1 tx
    let iy1 := max dy1 ty
    let ix2 := min dx2 tx2
    let iy2 := min dy2 ty2
    if ix2 ≤ ix1 ∨ iy2 ≤ iy1 then 0
    else
      let inter_area := (ix2 - ix1) * (iy2 - iy1)
      let det_area := d.bbox.width * d.bbox.height
      let track_area := tw * th
      let union_area := det_area + track_area - inter_area
      if union_area > 0 then inter_area / union_area else 0

/-- `_calculate_center_distance`: Euclidean distance from the detection centre
to the track's most recent centre; the source returns `float('inf')` for an
empty history, modelled as `none`. -/
noncomputable def calculate_center_distance (d : Detection) (t : TrackedObject) :
    Option ℝ :=
  match t.track_history.getLast? with
  | none => none
  | some c =>
    some (Real.sqrt (((d.bbox.center.1 : ℝ) - (c.1 : ℝ)) ^ 2 +
      ((d.bbox.center.2 : ℝ) - (c.2 : ℝ)) ^ 2))

/-- Strict `<` on floats-with-`+∞` (`none` is `+∞`; there is no NaN or `-∞`
in the modelled value space). -/
def optLt : Option ℝ → Option ℝ → Prop
  | some a, some b => a < b
  | some _, none => True
  | none, _ => False

/-- Non-strict `≤` on floats-with-`+∞`. -/
def optLe : Option ℝ → Option ℝ → Prop
  | some a, some b => a ≤ b
  | none, some _ => False
  | _, none => True

/-- The combined matching score `(1 - iou) + distance / distance_threshold`
(lower is better); `+∞` when the distance is `+∞`. -/
noncomputable def detScore (cfg : TrackerConfig) (t : TrackedObject) (d : Detection) :
    Option ℝ :=
  (calculate_center_distance d t).map
    (fun dist => ((1 - calculate_iou d t : ℚ) : ℝ) + dist / ((cfg.distance_threshold : ℚ) : ℝ))

/-- Eligibility of a detection for a track:
`iou > iou_threshold or distance < distance_threshold`. -/
def eligibleDet (cfg : TrackerConfig) (t : TrackedObject) (d : Detection) : Prop :=
  calculate_iou d t > cfg.iou_threshold ∨
    optLt (calculate_center_distance d t) (some ((cfg.distance_threshold : ℚ) : ℝ))

open Classical

/-- The inner loop of `_match_detections_to_tracks`: scan the unmatched pool
(`enumerate`, absolute index `i`), keeping the index and detection of the best
candidate so far together with its score (`best_score` starts at
`float('inf')`, i.e. `none`); a candidate replaces the best exactly when it is
eligible and its score is strictly below the best score. -/
noncomputable def findBestAux (cfg : TrackerConfig) (t : TrackedObject) :
    List Detection → ℕ → Option (ℕ × Detection) → Option ℝ → Option (ℕ × Detection)
  | [], _, best, _ => best
  | d :: ds, i, best, bestScore =>
    if eligibleDet cfg t d ∧ optLt (detScore cfg t d) bestScore then
      findBestAux cfg t ds (i + 1) (some (i, d)) (detScore cfg t d)
    else
      findBestAux cfg t ds (i + 1) best bestScore

/-- Best eligible candidate of the pool for one track (index and detection),
if any. -/
noncomputable def findBestMatch (cfg : TrackerConfig) (t : TrackedObject)
    (pool : List Detection) : Option (ℕ × Detection) :=
  findBestAux cfg t pool 0 none none

/-- One iteration of the track loop of `_match_detections_to_tracks`: a track
with empty history is skipped; otherwise its best candidate, when one exists,
is popped from the unmatched pool and recorded as this track's match. -/
noncomputable def matchStep (cfg : TrackerConfig)
    (acc : List (TrackedObject × Detection) × List Detection) (t : TrackedObject) :
    List (TrackedObject × Detection) × List Detection :=
  if t.track_history = [] then acc
  else
    match findBestMatch cfg t acc.2 with
    | none => acc
    | some (i, d) => (acc.1 ++ [(t, d)], acc.2.eraseIdx i)

/-- `_match_detections_to_tracks`: fold the per-track step over the live
tracks in stable registry (insertion) order, starting from an empty match
list and the full detection list as the unmatched pool. -/
noncomputable def match_detections_to_tracks (cfg : TrackerConfig)
    (tracks : List TrackedObject) (detections : List Detection) :
    List (TrackedObject × Detection) × List Detection :=
  tracks.foldl (matchStep cfg) ([], detections)

/-- `_get_similar_classes`: the static class-similarity table. -/
def get_similar_classes (class_name : String) : List String :=
  if class_name = "bicycle" then ["motorcycle", "electric_scooter"]
  else if class_name = "motorcycle" then ["bicycle", "electric_motorcycle"]
  else if class_name = "car" then ["truck", "van"]
  else if class_name = "truck" then ["car", "bus"]
  else if class_name = "bus" then ["truck", "van"]
  else []

/-- `_generate_model_suggestions`: the detected class first, then up to two
alternates at 0.8 × confidence, then `"unknown"` entries at 0.6 × confidence
until the list has 3 items (the `while` padding loop is modelled by
`List.replicate`), finally truncated to 3. -/
def generate_model_suggestions (d : Detection) : List Suggestion :=
  let suggestions : List Suggestion :=
    [⟨d.class_name, d.confidence⟩] ++
      ((get_similar_classes d.class_name).take 2).map
        (fun alt => ⟨alt, d.confidence * (4/5)⟩)
  let padded := suggestions ++
    List.replicate (3 - suggestions.length) ⟨"unknown", d.confidence * (3/5)⟩
  padded.take 3

/-- `_cleanup_old_tracks`: collect the ids of tracks missing for strictly more
than `max_missing_frames` frames, then delete those ids from the registry. -/
def cleanup_old_tracks (cfg : TrackerConfig) (tracks : List TrackedObject)
    (current_frame : ℕ) : List TrackedObject :=
  let tracks_to_remove :=
    (tracks.filter
      (fun t => (current_frame : ℤ) - (t.last_seen_frame : ℤ) > (cfg.max_missing_frames : ℤ))).map
      (fun t => t.id)
  tracks.filter (fun t => t.id ∉ tracks_to_remove)

/-- An image, modelled by its pixel dimensions only. -/
structure Image where
  height : ℕ
  width : ℕ
deriving DecidableEq

/-- Failures of the image pipeline that raise in Python and are caught by
`_extract_detection_images`. -/
inductive CropError where
  | divByZero
  | resizeEmpty
  | shapeMismatch
deriving DecidableEq

/-- Python `int(q)`: truncation toward zero. -/
def pyInt (q : ℚ) : ℤ :=
  if 0 ≤ q then ⌊q⌋ else ⌈q⌉

/-- Length of the Python slice `xs[a:b]` of a sequence of length `len`
(negative indices count from the end, indices are clamped). -/
def pySliceLen (len : ℕ) (a b : ℤ) : ℕ :=
  let norm : ℤ → ℤ := fun i => if i < 0 then max 0 ((len : ℤ) + i) else min i (len : ℤ)
  (norm b - norm a).toNat

/-- The resize-and-letterbox tail of `_create_detection_crop` on a crop of
dimensions `h × w`: the longer side is scaled to `target_size` (integer
truncation, aspect preserved; `cv2.resize` raises when a target dimension is
0, and dividing by a zero side raises `ZeroDivisionError`), and the result is
centred on a `target_size × target_size` zero canvas (the numpy slice
assignment raises when the resized crop does not fit the canvas slice). -/
def resize_letterbox (h w target_size : ℕ) : Except CropError Image :=
  if h > w then
    let new_h := target_size
    let new_w := w * target_size / h
    if new_w = 0 ∨ new_h = 0 then .error .resizeEmpty
    else
      let y_offset := (target_size - new_h) / 2
      let x_offset := (target_size - new_w) / 2
      if y_offset + new_h ≤ target_size ∧ x_offset + new_w ≤ target_size then
        .ok ⟨target_size, target_size⟩
      else .error .shapeMismatch
  else
    if w = 0 then .error .divByZero
    else
      let new_h := h * target_size / w
      let new_w := target_size
      if new_w = 0 ∨ new_h = 0 then .error .resizeEmpty
      else
        let y_offset := (target_size - new_h) / 2
        let x_offset := (target_size - new_w) / 2
        if y_offset + new_h ≤ target_size ∧ x_offset + new_w ≤ target_size then
          .ok ⟨target_size, target_size⟩
        else .error .shapeMismatch

/-- `_create_detection_crop`: adaptive padding `max(0.2, min(0.5, 5000/area))`,
clamp to frame bounds, fall back to the raw box when the padded region is
empty, then resize and letterbox (`resize_letterbox`). A zero box area raises
`ZeroDivisionError` when computing the padding. -/
def create_detection_crop (frame : Image) (d : Detection) (target_size : ℕ) :
    Except CropError Image :=
  let bbox_area := d.bbox.width * d.bbox.height
  if bbox_area = 0 then .error .divByZero
  else
    let padding := max (1/5 : ℚ) (min (1/2 : ℚ) (5000 / bbox_area))
    let pad_w := d.bbox.width * padding
    let pad_h := d.bbox.height * padding
    let x1 := max 0 (pyInt (d.bbox.x - pad_w))
    let y1 := max 0 (pyInt (d.bbox.y - pad_h))
    let x2 := min (frame.width : ℤ) (pyInt (d.bbox.x + d.bbox.width + pad_w))
    let y2 := min (frame.height : ℤ) (pyInt (d.bbox.y + d.bbox.height + pad_h))
    let h0 := pySliceLen frame.height y1 y2
    let w0 := pySliceLen frame.width x1 x2
    let hw : ℕ × ℕ :=
      if h0 = 0 ∨ w0 = 0 then
        (pySliceLen frame.height (pyInt d.bbox.y) (pyInt (d.bbox.y + d.bbox.height)),
         pySliceLen frame.width (pyInt d.bbox.x) (pyInt (d.bbox.x + d.bbox.width)))
      else (h0, w0)
    resize_letterbox hw.1 hw.2 target_size

/-- `_create_full_frame_with_bbox`: copy the frame and draw the box and label;
drawing preserves the pixel dimensions (pixel content is outside the model). -/
def create_full_frame_with_bbox (frame : Image) (_d : Detection) : Image :=
  ⟨frame.height, frame.width⟩

/-- `_encode_image_to_base64`: downscale so the longest side is at most 800
(raising, like `cv2.resize`, when a computed target dimension truncates to 0),
then JPEG/base64-encode via the abstract encoder `enc` and wrap as a data URI. -/
def encode_image_to_base64 (enc : ℕ → ℕ → String) (img : Image) :
    Except CropError String :=
  let h := img.height
  let w := img.width
  if max h w > 800 then
    let scale : ℚ := 800 / (max h w : ℚ)
    let new_w := (pyInt ((w : ℚ) * scale)).toNat
    let new_h := (pyInt ((h : ℚ) * scale)).toNat
    if new_w = 0 ∨ new_h = 0 then .error .resizeEmpty
    else .ok ("data:image/jpeg;base64," ++ enc new_h new_w)
  else .ok ("data:image/jpeg;base64," ++ enc h w)

/-- The body of the `try` block of `_extract_detection_images`: annotated full
frame first, then the fixed-size crop, each encoded. -/
def extract_detection_images_core (enc : ℕ → ℕ → String) (frame : Image)
    (d : Detection) : Except CropError (String × String) := do
  let full_frame_data ← encode_image_to_base64 enc (create_full_frame_with_bbox frame d)
  let crop_image ← create_detection_crop frame d 224
  let crop_data ← encode_image_to_base64 enc crop_image
  pure (full_frame_data, crop_data)

/-- `_extract_detection_images`: any failure of the pipeline is caught and
turned into a pair of empty payloads. -/
def extract_detection_images (enc : ℕ → ℕ → String) (frame : Image)
    (d : Detection) : String × String :=
  match extract_detection_images_core enc frame d with
  | .ok p => p
  | .error _ => ("", "")

/-- The record assembled by `_create_unique_detection` (the `UniqueDetection`
id is the creating track's id; `user_choice = None`, both manual flags false). -/
def create_unique_detection_record (enc : ℕ → ℕ → String) (d : Detection)
    (frame : Image) (frame_number : ℕ) (track_id : ℕ) : UniqueDetection :=
  let imgs := extract_detection_images enc frame d
  { id := track_id
    frame_number := frame_number
    full_frame_image_data := imgs.1
    frame_image_data := imgs.2
    bbox := d.bbox
    model_suggestions := generate_model_suggestions d
    user_choice := none
    is_manual_label := false
    is_manual_correction := false }

/-- `_create_unique_detection`: append the assembled record to
`self.unique_detections`. -/
def create_unique_detection (enc : ℕ → ℕ → String) (s : TrackerState)
    (d : Detection) (frame : Image) (frame_number : ℕ) (track_id : ℕ) :
    TrackerState :=
  { s with unique_detections :=
      s.unique_detections ++ [create_unique_detection_record enc d frame frame_number track_id] }

/-- The track built by `_create_new_track` for id `k`: fresh object, then one
`update` with the triggering detection. -/
def newTrackFor (d : Detection) (frame_number : ℕ) (k : ℕ) : TrackedObject :=
  (TrackedObject.mk k d.class_name frame_number [] [] [] 0).update d frame_number

/-- `_create_new_track`: issue a fresh id, register the new track (insertion
order: appended), and synchronously create its unique detection. -/
def create_new_track (enc : ℕ → ℕ → String) (s : TrackerState) (d : Detection)
    (frame : Image) (frame_number : ℕ) : TrackerState :=
  let track_id := s.next_id
  let s' : TrackerState :=
    { s with
      tracked_objects := s.tracked_objects ++ [newTrackFor d frame_number track_id]
      next_id := track_id + 1 }
  create_unique_detection enc s' d frame frame_number track_id

/-- The matched-track update pass of `_process_frame_detections`: each
registry entry whose id carries a match is updated in place (registry order
preserved; Python mutates `self.tracked_objects[track_id]`). -/
def update_matched_tracks (ms : List (TrackedObject × Detection))
    (frame_number : ℕ) (tracks : List TrackedObject) : List TrackedObject :=
  tracks.map (fun u =>
    match ms.find? (fun p => p.1.id = u.id) with
    | some p => u.update p.2 frame_number
    | none => u)

/-- `_process_frame_detections`: match, update the matched tracks in place,
create a new track per unmatched detection, then expire old tracks. -/
noncomputable def process_frame_detections (cfg : TrackerConfig)
    (enc : ℕ → ℕ → String) (s : TrackerState) (detections : List Detection)
    (frame : Image) (frame_number : ℕ) : TrackerState :=
  let mu := match_detections_to_tracks cfg s.tracked_objects detections
  let s1 : TrackerState :=
    { s with tracked_objects := update_matched_tracks mu.1 frame_number s.tracked_objects }
  let s2 := mu.2.foldl (fun st d => create_new_track enc st d frame frame_number) s1
  { s2 with tracked_objects := cleanup_old_tracks cfg s2.tracked_objects frame_number }

/-- One progress snapshot (`ProcessingProgress`; status/message strings are
constant and omitted). -/
structure ProcessingProgress where
  current_frame : ℕ
  total_frames : ℕ
  percentage : ℚ
  estimated_time_remaining : Option ℚ
deriving DecidableEq

/-- `_update_progress`: `percentage = current/total * 100`; the remaining-time
estimate is `elapsed / current * (total - current)` when `current > 0`, absent
otherwise. `elapsed` abstracts `time.time() - start_time`. -/
def update_progress (current_frame total_frames : ℕ) (elapsed : ℚ) :
    ProcessingProgress :=
  { current_frame := current_frame
    total_frames := total_frames
    percentage := (current_frame : ℚ) / (total_frames : ℚ) * 100
    estimated_time_remaining :=
      if current_frame > 0 then
        some (elapsed / (current_frame : ℚ) * ((total_frames : ℚ) - (current_frame : ℚ)))
      else none }

/-- The read loop of `process_video`: one list entry per frame read, carrying
the frame and the detector's output for it; frames whose index is not a
multiple of `frame_skip` only advance the counter; each retained frame emits a
progress snapshot (with `clock n` abstracting the elapsed wall-clock time at
frame `n`) and is processed. -/
noncomputable def process_video_loop (cfg : TrackerConfig) (enc : ℕ → ℕ → String)
    (frame_skip total_frames : ℕ) (clock : ℕ → ℚ) :
    List (Image × List Detection) → ℕ → TrackerState → List ProcessingProgress →
    TrackerState × List ProcessingProgress
  | [], _, s, progress => (s, progress)
  | (frame, dets) :: rest, frame_number, s, progress =>
    if frame_number % frame_skip ≠ 0 then
      process_video_loop cfg enc frame_skip total_frames clock rest (frame_number + 1) s progress
    else
      let prog := update_progress frame_number total_frames (clock frame_number)
      let s' := process_frame_detections cfg enc s dets frame frame_number
      process_video_loop cfg enc frame_skip total_frames clock rest (frame_number + 1) s'
        (progress ++ [prog])

/-- The streaming part of `process_video` from a given starting state: run the
read loop from frame 0, then emit the final
`(total_frames, total_frames)` snapshot. -/
noncomputable def process_video_run (cfg : TrackerConfig) (enc : ℕ → ℕ → String)
    (frames : List (Image × List Detection)) (total_frames : ℕ)
    (frame_skip : ℕ) (clock : ℕ → ℚ) (s0 : TrackerState) :
    TrackerState × List ProcessingProgress :=
  let r := process_video_loop cfg enc frame_skip total_frames clock frames 0 s0 []
  (r.1, r.2 ++ [update_progress total_frames total_frames (clock total_frames)])

/-- `process_video` after its precondition checks: tracking state is reset and
the stream is processed. -/
noncomputable def process_video (cfg : TrackerConfig) (enc : ℕ → ℕ → String)
    (frames : List (Image × List Detection)) (total_frames : ℕ)
    (frame_skip : ℕ) (clock : ℕ → ℚ) : TrackerState × List ProcessingProgress :=
  process_video_run cfg enc frames total_frames frame_skip clock ⟨[], [], 0⟩

/-- The two precondition failures of `process_video`. -/
inductive PvError where
  | modelNotLoaded
  | cannotOpenVideo
deriving DecidableEq

/-- `process_video` with its precondition checks, acting on the service state
`s`: the detector check precedes the state reset; the video-open check follows
it (the fresh-id counter carries over, standing for global `uuid4` freshness).
Returns the service state after the call and either the result list or the
raised error. -/
noncomputable def process_video_checked (cfg : TrackerConfig)
    (enc : ℕ → ℕ → String) (is_loaded cap_opened : Bool) (s : TrackerState)
    (frames : List (Image × List Detection)) (total_frames : ℕ)
    (frame_skip : ℕ) (clock : ℕ → ℚ) :
    TrackerState × Except PvError (List UniqueDetection) :=
  if is_loaded = false then (s, .error .modelNotLoaded)
  else
    let s0 : TrackerState := ⟨[], [], s.next_id⟩
    if cap_opened = false then (s0, .error .cannotOpenVideo)
    else
      let r := process_video_run cfg enc frames total_frames frame_skip clock s0
      (r.1, .ok r.1.unique_detections)

/-- Equal-length, capped-at-10 invariant of the three track histories. -/
def histInv (t : TrackedObject) : Prop :=
  t.track_history.length = t.confidence_history.length ∧
  t.confidence_history.length = t.bbox_history.length ∧
  t.track_history.length ≤ 10

instance (t : TrackedObject) : Decidable (histInv t) := by
  unfold histInv; infer_instance

/-- The tracks created for a run of unmatched detections, with consecutively
issued fresh ids starting at `k0`. -/
def newTracks (ds : List Detection) (frame_number k0 : ℕ) : List TrackedObject :=
  List.zipWith (fun d k => newTrackFor d frame_number k) ds (List.range' k0 ds.length)

/-- The unique-detection records created for a run of unmatched detections,
with consecutively issued fresh ids starting at `k0`. -/
def newRecords (enc : ℕ → ℕ → String) (frame : Image) (frame_number : ℕ)
    (ds : List Detection) (k0 : ℕ) : List UniqueDetection :=
  List.zipWith (fun d k => create_unique_detection_record enc d frame frame_number k)
    ds (List.range' k0 ds.length)

/-- A concrete detection used in witness runs: a 50 × 50 box at (100, 100). -/
def wDet : Detection := ⟨"car", 9/10, ⟨100, 100, 50, 50⟩, 2⟩

/-- A concrete frame sequence: one detection at frame 0, nothing for the 12
frames 1–12, and the same detection again at frame 13. -/
def vanishFrames : List (Image × List Detection) :=
  (⟨1000, 1000⟩, [wDet]) :: List.replicate 12 ((⟨1000, 1000⟩ : Image), ([] : List Detection))
    ++ [(⟨1000, 1000⟩, [wDet])]

/-- A concrete track as produced by one update with `wDet` at frame 0. -/
def wTrack : TrackedObject := newTrackFor wDet 0 0

/-- A trivial concrete encoder for witness runs. -/
def encEmpty : ℕ → ℕ → String := fun _ _ => ""

/-- A trivial concrete clock for witness runs. -/
def clockZero : ℕ → ℚ := fun _ => 0

/-- A concrete pre-existing unique detection, for exercising the state-reset
behaviour of `process_video`'s precondition checks. -/
def wUnique : UniqueDetection := ⟨0, 0, "", "", ⟨0, 0, 10, 10⟩, [], none, false, false⟩

/-- A degenerate concrete detection (zero-width box), for exercising the
fail-soft image-extraction path. -/
def wDegenerate : Detection := ⟨"car", 1/2, ⟨5, 5, 0, 7⟩, 2⟩

lemma takeLast_of_le {xs : List α} {k : ℕ} (h : xs.length ≤ k) : takeLast xs k = xs := by
  simp [takeLast, Nat.sub_eq_zero_of_le h]

lemma takeLast_length (xs : List α) (k : ℕ) :
    (takeLast xs k).length = xs.length - (xs.length - k) := by
  simp [takeLast]

lemma get_similar_classes_cases (c : String) :
    get_similar_classes c = [] ∨ ∃ a b, get_similar_classes c = [a, b] := by
  unfold get_similar_classes
  split_ifs <;> first | (left; rfl) | exact Or.inr ⟨_, _, rfl⟩

/-- C4: for every detection with class `c` and confidence `p`, the suggestions
list has exactly 3 entries; the first is `{type: c, confidence: p}`; the
alternates from the similarity table follow at confidence `0.8 * p`; the list
is padded to exactly 3 entries with `{type: "unknown", confidence: 0.6 * p}`
(these padding entries are the generic fallback used for classes not in the
table) and truncated to 3. -/
theorem suggestions_exactly_three (d : Detection) :
    (generate_model_suggestions d).length = 3 ∧
    (generate_model_suggestions d).head? = some ⟨d.class_name, d.confidence⟩ ∧
    generate_model_suggestions d =
      ⟨d.class_name, d.confidence⟩ ::
        ((get_similar_classes d.class_name).take 2).map
          (fun alt => ⟨alt, d.confidence * (4/5)⟩) ++
        List.replicate (2 - ((get_similar_classes d.class_name).take 2).length)
          ⟨"unknown", d.confidence * (3/5)⟩ := by
  rcases get_similar_classes_cases d.class_name with h | ⟨a, b, h⟩ <;>
    simp [generate_model_suggestions, h, List.replicate]

lemma histInv_update {t : TrackedObject} (d : Detection) (n : ℕ) (h : histInv t) :
    histInv (t.update d n) := by
  obtain ⟨h1, h2, h3⟩ := h
  unfold TrackedObject.update
  by_cases hc : (t.track_history ++ [d.bbox.center]).length > 10
  · rw [if_pos hc]
    refine ⟨?_, ?_, ?_⟩ <;> (simp [takeLast_length, h1, h2] at hc ⊢; try omega)
  · rw [if_neg hc]
    refine ⟨?_, ?_, ?_⟩ <;> (simp at hc ⊢; try omega)

lemma update_track_history_window {t : TrackedObject} (d : Detection) (n : ℕ)
    (h : histInv t) :
    (t.update d n).track_history = takeLast (t.track_history ++ [d.bbox.center]) 10 ∧
    (t.update d n).confidence_history =
      takeLast (t.confidence_history ++ [d.confidence]) 10 ∧
    (t.update d n).bbox_history =
      takeLast (t.bbox_history ++ [(d.bbox.x, d.bbox.y, d.bbox.width, d.bbox.height)]) 10 := by
  obtain ⟨h1, h2, h3⟩ := h
  unfold TrackedObject.update
  by_cases hc : (t.track_history ++ [d.bbox.center]).length > 10
  · rw [if_pos hc]
    exact ⟨rfl, rfl, rfl⟩
  · rw [if_neg hc]
    simp only [List.length_append, List.length_cons, List.length_nil] at hc
    refine ⟨?_, ?_, ?_⟩ <;> rw [takeLast_of_le (by simp; omega)]

/-- C3: for a track satisfying the history invariant, one `update` appends the
new centre/confidence/bbox and keeps only the most recent at-most-10 entries
of each history (a sliding window), preserving equal lengths capped at 10; the
invariant is preserved by any sequence of updates. -/
theorem history_sliding_window (t : TrackedObject) (d : Detection) (n : ℕ) :
    (histInv t →
      ((t.update d n).track_history = takeLast (t.track_history ++ [d.bbox.center]) 10 ∧
       (t.update d n).confidence_history =
         takeLast (t.confidence_history ++ [d.confidence]) 10 ∧
       (t.update d n).bbox_history =
         takeLast (t.bbox_history ++ [(d.bbox.x, d.bbox.y, d.bbox.width, d.bbox.height)]) 10) ∧
      histInv (t.update d n)) ∧
    (∀ ds : List (Detection × ℕ), histInv t →
      histInv (ds.foldl (fun a p => a.update p.1 p.2) t)) := by
  constructor
  · exact fun h => ⟨update_track_history_window d n h, histInv_update d n h⟩
  · intro ds
    induction ds generalizing t with
    | nil => exact fun h => h
    | cons p ps ih => exact fun h => ih _ (histInv_update p.1 p.2 h)

/-- Witness for C3 at a concrete fresh track and detection. -/
theorem history_sliding_window_witness :
    ((wTrack.update wDet 1).track_history =
        takeLast (wTrack.track_history ++ [wDet.bbox.center]) 10 ∧
      (wTrack.update wDet 1).confidence_history =
        takeLast (wTrack.confidence_history ++ [wDet.confidence]) 10 ∧
      (wTrack.update wDet 1).bbox_history =
        takeLast (wTrack.bbox_history ++
          [(wDet.bbox.x, wDet.bbox.y, wDet.bbox.width, wDet.bbox.height)]) 10) ∧
    histInv (wTrack.update wDet 1) ∧
    histInv ([(wDet, 2), (wDet, 3)].foldl (fun a p => a.update p.1 p.2) wTrack) := by
  have h := history_sliding_window wTrack wDet 1
  have hinv : histInv wTrack := by decide
  exact ⟨(h.1 hinv).1, (h.1 hinv).2, (history_sliding_window wTrack wDet 1).2 _ hinv⟩

lemma cleanup_mem_iff (cfg : TrackerConfig) (tracks : List TrackedObject)
    (n : ℕ) (hnd : (tracks.map (fun t => t.id)).Nodup) (t : TrackedObject) :
    t ∈ cleanup_old_tracks cfg tracks n ↔
      t ∈ tracks ∧ (n : ℤ) - (t.last_seen_frame : ℤ) ≤ (cfg.max_missing_frames : ℤ) := by
  have hinj : ∀ u ∈ tracks, ∀ v ∈ tracks, u.id = v.id → u = v :=
    fun _ hu _ hv h => List.inj_on_of_nodup_map hnd hu hv h
  unfold cleanup_old_tracks
  rw [List.mem_filter]
  constructor
  · rintro ⟨hmem, hkeep⟩
    refine ⟨hmem, ?_⟩
    by_contra hover
    rw [decide_eq_true_eq] at hkeep
    exact hkeep (List.mem_map.mpr
      ⟨t, List.mem_filter.mpr ⟨hmem, decide_eq_true (by omega)⟩, rfl⟩)
  · rintro ⟨hmem, hle⟩
    refine ⟨hmem, ?_⟩
    rw [decide_eq_true_eq]
    intro hid
    obtain ⟨u, hu, huid⟩ := List.mem_map.mp hid
    rw [List.mem_filter, decide_eq_true_eq] at hu
    have heq : u = t := hinj u hu.1 t hmem huid
    subst heq
    omega

/-- C5: after the detections of frame `n` are processed, a track survives the
cleanup pass iff `n - last_seen_frame ≤ max_missing_frames` (removal happens
exactly when the difference strictly exceeds the threshold; removal is keyed
by id, so the criterion presumes distinct registry ids, which fresh-id
creation guarantees); cleanup touches only the registry and never the emitted
records; consequently, on the concrete 14-frame run in which the object of
`wDet` is seen at frame 0, vanishes for frames 1–12 (a gap exceeding
`max_missing_frames = 10`) and reappears identically at frame 13, the run
emits a second UniqueDetection (frame numbers 0 and 13) instead of
resurrecting the expired track. -/
theorem track_expiry_iff (cfg : TrackerConfig) (tracks : List TrackedObject) (n : ℕ) :
    ((tracks.map (fun t => t.id)).Nodup →
      ∀ t : TrackedObject,
        t ∈ cleanup_old_tracks cfg tracks n ↔
          t ∈ tracks ∧ (n : ℤ) - (t.last_seen_frame : ℤ) ≤ (cfg.max_missing_frames : ℤ)) ∧
    ((process_video defaultConfig encEmpty vanishFrames 14 1 clockZero).1.unique_detections.map
        (fun u => u.frame_number) = [0, 13]) := by
  refine ⟨fun hnd t => cleanup_mem_iff cfg tracks n hnd t, ?_⟩
  decide

/-- Witness for C5: the expiry criterion applied to a concrete one-track
registry. -/
theorem track_expiry_iff_witness :
    wTrack ∈ cleanup_old_tracks defaultConfig [wTrack] 5 ↔
      wTrack ∈ [wTrack] ∧ (5 : ℤ) - (wTrack.last_seen_frame : ℤ) ≤
        ((defaultConfig.max_missing_frames : ℕ) : ℤ) :=
  (track_expiry_iff defaultConfig [wTrack] 5).1 (by decide) wTrack

/-- Counterexample to C6 as stated: when the video source cannot be opened,
the invocation does raise, but only after the live-track registry and
unique-detection list have already been reset to empty — so on a service state
holding one accumulated unique detection, the failed invocation changes the
unique-detection list (to `[]`), contradicting "the live-track registry and
the accumulated unique-detection list are unchanged by the failed
invocation". -/
theorem precondition_failure_mutates_state_cex :
    (process_video_checked defaultConfig encEmpty true false
        ⟨[wTrack], [wUnique], 1⟩ [] 0 1 clockZero).2 = .error .cannotOpenVideo ∧
    (process_video_checked defaultConfig encEmpty true false
        ⟨[wTrack], [wUnique], 1⟩ [] 0 1 clockZero).1.unique_detections = [] ∧
    (process_video_checked defaultConfig encEmpty true false
        ⟨[wTrack], [wUnique], 1⟩ [] 0 1 clockZero).1.unique_detections ≠
      (⟨[wTrack], [wUnique], 1⟩ : TrackerState).unique_detections := by
  refine ⟨rfl, rfl, ?_⟩
  decide

/-- C6 as amended: the detector-not-loaded failure raises before any mutation
of the tracking state (registry, unique-detection list and id counter are
returned untouched); the cannot-open-video failure raises after the start-of-
invocation reset (registry and unique-detection list cleared) but before any
frame is processed, so the failed invocation creates no tracks and no unique
detections. -/
theorem precondition_failure_behavior (cfg : TrackerConfig)
    (enc : ℕ → ℕ → String) (cap_opened : Bool) (s : TrackerState)
    (frames : List (Image × List Detection)) (total_frames frame_skip : ℕ)
    (clock : ℕ → ℚ) :
    process_video_checked cfg enc false cap_opened s frames total_frames frame_skip clock =
      (s, .error .modelNotLoaded) ∧
    process_video_checked cfg enc true false s frames total_frames frame_skip clock =
      (⟨[], [], s.next_id⟩, .error .cannotOpenVideo) :=
  ⟨rfl, rfl⟩

/-- C7: image extraction never propagates a failure: any error in the
annotate/crop/encode pipeline yields the pair of empty payloads (in
particular a degenerate zero-area box does), and the UniqueDetection record
is still created, carrying exactly the extraction result as its two image
payloads. -/
theorem extraction_fails_soft (enc : ℕ → ℕ → String) (frame : Image)
    (d : Detection) (s : TrackerState) (n tid : ℕ) :
    (∀ e : CropError, extract_detection_images_core enc frame d = .error e →
      extract_detection_images enc frame d = ("", "")) ∧
    (d.bbox.width * d.bbox.height = 0 →
      extract_detection_images enc frame d = ("", "")) ∧
    (create_unique_detection enc s d frame n tid =
      { s with unique_detections := s.unique_detections ++
          [create_unique_detection_record enc d frame n tid] }) ∧
    (create_unique_detection_record enc d frame n tid).full_frame_image_data =
      (extract_detection_images enc frame d).1 ∧
    (create_unique_detection_record enc d frame n tid).frame_image_data =
      (extract_detection_images enc frame d).2 := by
  refine ⟨?_, ?_, rfl, rfl, rfl⟩
  · intro e he
    unfold extract_detection_images
    rw [he]
  · intro h0
    unfold extract_detection_images extract_detection_images_core
    cases hfull : encode_image_to_base64 enc (create_full_frame_with_bbox frame d) with
    | error e => simp [hfull, Bind.bind, Except.bind]
    | ok v =>
      simp [hfull, create_detection_crop, h0, Bind.bind, Except.bind, Functor.map,
        Except.map]

/-- Witness for C7: the degenerate zero-width detection yields empty payloads
on a concrete frame. -/
theorem extraction_fails_soft_witness :
    extract_detection_images encEmpty ⟨100, 100⟩ wDegenerate = ("", "") :=
  (extraction_fails_soft encEmpty ⟨100, 100⟩ wDegenerate ⟨[], [], 0⟩ 0 0).2.1
    (by norm_num [wDegenerate])

lemma mul_div_le_of_le {a b c : ℕ} (hab : a ≤ b) (hb : 0 < b) : a * c / b ≤ c := by
  calc a * c / b ≤ b * c / b := Nat.div_le_div_right (Nat.mul_le_mul_right c hab)
    _ = c := Nat.mul_div_cancel_left c hb

lemma letterbox_fits {n : ℕ} (h : n ≤ 224) : (224 - n) / 2 + n ≤ 224 := by
  have := Nat.div_le_self (224 - n) 2
  omega

lemma resize_letterbox_spec (h w : ℕ) :
    (∀ img : Image, resize_letterbox h w 224 = .ok img → img = ⟨224, 224⟩) ∧
    resize_letterbox h w 224 ≠ .error .shapeMismatch := by
  constructor
  · intro img he
    unfold resize_letterbox at he
    dsimp only at he
    split_ifs at he <;> simp_all
  · unfold resize_letterbox
    dsimp only
    split_ifs with h1 h2 h3 h4 h5 h6 <;> try simp
    · exact absurd ⟨by simp [letterbox_fits], by
        exact letterbox_fits (mul_div_le_of_le (Nat.le_of_lt h1)
          (Nat.lt_of_le_of_lt (Nat.zero_le w) h1))⟩ h3
    · exact absurd ⟨letterbox_fits (mul_div_le_of_le (Nat.le_of_not_lt h1)
        (Nat.pos_of_ne_zero h4)), by simp⟩ h6

/-- C8: whenever `_create_detection_crop` produces a crop (no exception path
is taken), that crop is exactly 224 × 224 — for every frame and detection,
whatever the aspect ratio or edge clipping; moreover the letterbox placement
itself can never fail (the resized crop always fits the 224 × 224 canvas), so
the only failure modes are the zero-area / empty-resize exceptions that
`_extract_detection_images` catches. -/
theorem crop_always_square (frame : Image) (d : Detection) :
    (∀ img : Image, create_detection_crop frame d 224 = .ok img → img = ⟨224, 224⟩) ∧
    create_detection_crop frame d 224 ≠ .error .shapeMismatch := by
  unfold create_detection_crop
  dsimp only
  split_ifs with h0 hfall
  · exact ⟨fun img he => by simp at he, by simp⟩
  · exact resize_letterbox_spec _ _
  · exact resize_letterbox_spec _ _

/-- Witness for C8: on a 1000 × 1000 frame, the 50 × 50 box of `wDet` is
padded at ratio 0.5 to a 100 × 100 region and produces the 224 × 224 crop. -/
theorem crop_always_square_witness :
    create_detection_crop ⟨1000, 1000⟩ wDet 224 = .ok ⟨224, 224⟩ ∧
    (⟨224, 224⟩ : Image) = ⟨224, 224⟩ := by
  have hc : create_detection_crop ⟨1000, 1000⟩ wDet 224 = .ok ⟨224, 224⟩ := by
    norm_num [create_detection_crop, resize_letterbox, pyInt, pySliceLen, wDet,
      max_def, min_def]
  exact ⟨hc, (crop_always_square ⟨1000, 1000⟩ wDet).1 ⟨224, 224⟩ hc⟩

lemma optLt_trans {a b c : Option ℝ} (h1 : optLt a b) (h2 : optLt b c) : optLt a c := by
  cases a <;> cases b <;> cases c <;> simp_all [optLt]
  exact h1.trans h2

lemma optLt_irrefl (a : Option ℝ) : ¬ optLt a a := by
  cases a <;> simp [optLt]

lemma calculate_center_distance_isSome {d : Detection} {t : TrackedObject}
    (h : t.track_history ≠ []) : ∃ x : ℝ, calculate_center_distance d t = some x := by
  unfold calculate_center_distance
  cases hl : t.track_history.getLast? with
  | none =>
    rw [List.getLast?_eq_none_iff] at hl
    exact absurd hl h
  | some c => exact ⟨_, rfl⟩

lemma detScore_isSome (cfg : TrackerConfig) {d : Detection} {t : TrackedObject}
    (h : t.track_history ≠ []) : ∃ x : ℝ, detScore cfg t d = some x := by
  obtain ⟨x, hx⟩ := calculate_center_distance_isSome (d := d) h
  exact ⟨_, by rw [detScore, hx]; rfl⟩

lemma findBestAux_index (cfg : TrackerConfig) (t : TrackedObject)
    (pool : List Detection) :
    ∀ (ds : List Detection) (i : ℕ) (best : Option (ℕ × Detection)) (bs : Option ℝ),
      (∀ k : ℕ, ds[k]? = pool[i + k]?) →
      (∀ j d, best = some (j, d) → pool[j]? = some d) →
      ∀ j d, findBestAux cfg t ds i best bs = some (j, d) → pool[j]? = some d := by
  intro ds
  induction ds with
  | nil =>
    intro i best bs _ hbest j d h
    simp only [findBestAux] at h
    exact hbest j d h
  | cons d0 ds ih =>
    intro i best bs hsuf hbest j d h
    simp only [findBestAux] at h
    have hsuf' : ∀ k : ℕ, ds[k]? = pool[(i + 1) + k]? := by
      intro k
      have := hsuf (k + 1)
      simpa [Nat.add_assoc, Nat.add_comm 1 k] using this
    by_cases hc : eligibleDet cfg t d0 ∧ optLt (detScore cfg t d0) bs
    · rw [if_pos hc] at h
      refine ih (i + 1) (some (i, d0)) (detScore cfg t d0) hsuf' ?_ j d h
      intro j' d' he
      obtain ⟨rfl, rfl⟩ : j' = i ∧ d' = d0 := by
        injection he with he'
        exact ⟨(congrArg Prod.fst he').symm, (congrArg Prod.snd he').symm⟩
      have := hsuf 0
      simpa using this.symm
    · rw [if_neg hc] at h
      exact ih (i + 1) best bs hsuf' hbest j d h

lemma findBestAux_min (cfg : TrackerConfig) (t : TrackedObject)
    (pool : List Detection) (hhist : t.track_history ≠ []) :
    ∀ (ds : List Detection) (i : ℕ) (best : Option (ℕ × Detection)) (bs : Option ℝ),
      (∀ k : ℕ, ds[k]? = pool[i + k]?) →
      (bs = (match best with | none => none | some p => detScore cfg t p.2)) →
      (∀ (j : ℕ) (d : Detection), best = some (j, d) → eligibleDet cfg t d) →
      (∀ k : ℕ, k < i → ∀ dk : Detection, pool[k]? = some dk → eligibleDet cfg t dk →
        ¬ optLt (detScore cfg t dk) bs) →
      ((∀ (j : ℕ) (d : Detection), findBestAux cfg t ds i best bs = some (j, d) →
        eligibleDet cfg t d ∧
        ∀ (k : ℕ) (dk : Detection), pool[k]? = some dk → eligibleDet cfg t dk →
          ¬ optLt (detScore cfg t dk) (detScore cfg t d)) ∧
      (findBestAux cfg t ds i best bs = none →
        ∀ (k : ℕ) (dk : Detection), pool[k]? = some dk → eligibleDet cfg t dk → False)) := by
  intro ds
  induction ds with
  | nil =>
    intro i best bs hsuf hsync hbest hmin
    have hlen : pool.length ≤ i := by
      have h0 := hsuf 0
      simp only [List.getElem?_nil] at h0
      rw [Nat.add_zero] at h0
      exact List.getElem?_eq_none_iff.mp h0.symm
    have hklt : ∀ k (dk : Detection), pool[k]? = some dk → k < i := by
      intro k dk hk
      by_contra hge
      have hnone : pool[k]? = none :=
        List.getElem?_eq_none (le_trans hlen (Nat.le_of_not_lt hge))
      rw [hnone] at hk
      exact Option.noConfusion hk
    constructor
    · intro j d h
      simp only [findBestAux] at h
      refine ⟨hbest j d h, ?_⟩
      intro k dk hk helig
      have := hmin k (hklt k dk hk) dk hk helig
      rwa [hsync, h] at this
    · intro h
      simp only [findBestAux] at h
      subst h
      intro k dk hk helig
      have := hmin k (hklt k dk hk) dk hk helig
      rw [hsync] at this
      obtain ⟨x, hx⟩ := detScore_isSome cfg (d := dk) hhist
      rw [hx] at this
      exact this trivial
  | cons d0 ds ih =>
    intro i best bs hsuf hsync hbest hmin
    have hsuf' : ∀ k : ℕ, ds[k]? = pool[(i + 1) + k]? := by
      intro k
      have := hsuf (k + 1)
      simpa [Nat.add_assoc, Nat.add_comm 1 k] using this
    have hp0 : pool[i]? = some d0 := by
      have := hsuf 0
      simpa using this.symm
    simp only [findBestAux]
    by_cases hc : eligibleDet cfg t d0 ∧ optLt (detScore cfg t d0) bs
    · rw [if_pos hc]
      refine ih (i + 1) (some (i, d0)) (detScore cfg t d0) hsuf' rfl ?_ ?_
      · intro j' d' he
        obtain ⟨rfl, rfl⟩ : j' = i ∧ d' = d0 := by
          injection he with he'
          exact ⟨(congrArg Prod.fst he').symm, (congrArg Prod.snd he').symm⟩
        exact hc.1
      · intro k hk dk hdk helig hlt
        rcases Nat.lt_succ_iff_lt_or_eq.mp hk with hk' | rfl
        · exact hmin k hk' dk hdk helig (optLt_trans hlt hc.2)
        · have heq : dk = d0 := by rw [hp0] at hdk; exact (Option.some.inj hdk).symm
          subst heq
          exact optLt_irrefl _ hlt
    · rw [if_neg hc]
      refine ih (i + 1) best bs hsuf' hsync hbest ?_
      intro k hk dk hdk helig hlt
      rcases Nat.lt_succ_iff_lt_or_eq.mp hk with hk' | rfl
      · exact hmin k hk' dk hdk helig hlt
      · have heq : dk = d0 := by rw [hp0] at hdk; exact (Option.some.inj hdk).symm
        subst heq
        exact hc ⟨helig, hlt⟩

lemma perm_cons_eraseIdx {α : Type} {l : List α} {i : ℕ} {x : α}
    (h : l[i]? = some x) : l.Perm (x :: l.eraseIdx i) := by
  induction l generalizing i with
  | nil => simp at h
  | cons a l ih =>
    cases i with
    | zero =>
      simp only [List.getElem?_cons_zero, Option.some.injEq] at h
      subst h
      simp [List.eraseIdx]
    | succ i =>
      simp only [List.getElem?_cons_succ] at h
      have h1 : (a :: l).Perm (a :: (x :: l.eraseIdx i)) := (ih h).cons a
      have h2 : (a :: x :: l.eraseIdx i).Perm (x :: a :: l.eraseIdx i) :=
        List.Perm.swap x a _
      simpa using h1.trans h2

lemma matchStep_cases (cfg : TrackerConfig)
    (acc : List (TrackedObject × Detection) × List Detection) (t : TrackedObject) :
    matchStep cfg acc t = acc ∨
    ∃ (i : ℕ) (d : Detection), acc.2[i]? = some d ∧
      matchStep cfg acc t = (acc.1 ++ [(t, d)], acc.2.eraseIdx i) := by
  unfold matchStep
  by_cases h : t.track_history = []
  · left
    rw [if_pos h]
  · rw [if_neg h]
    cases hf : findBestMatch cfg t acc.2 with
    | none => exact Or.inl rfl
    | some p =>
      obtain ⟨i, d⟩ := p
      refine Or.inr ⟨i, d, ?_, rfl⟩
      refine findBestAux_index cfg t acc.2 acc.2 0 none none
        (fun k => by simp) (by simp) i d ?_
      rw [findBestMatch] at hf
      exact hf

lemma matchfold_spec (cfg : TrackerConfig) :
    ∀ (ts : List TrackedObject)
      (acc : List (TrackedObject × Detection) × List Detection),
      ∃ ext : List (TrackedObject × Detection),
        (ts.foldl (matchStep cfg) acc).1 = acc.1 ++ ext ∧
        (ext.map Prod.fst).Sublist ts ∧
        acc.2.Perm (ext.map Prod.snd ++ (ts.foldl (matchStep cfg) acc).2) := by
  intro ts
  induction ts with
  | nil => exact fun acc => ⟨[], by simp, by simp, by simp⟩
  | cons t ts ih =>
    intro acc
    rw [List.foldl_cons]
    rcases matchStep_cases cfg acc t with hs | ⟨i, d, hget, hs⟩
    · rw [hs]
      obtain ⟨ext, h1, h2, h3⟩ := ih acc
      exact ⟨ext, h1, h2.cons t, h3⟩
    · rw [hs]
      obtain ⟨ext, h1, h2, h3⟩ := ih (acc.1 ++ [(t, d)], acc.2.eraseIdx i)
      dsimp only at h1 h3
      refine ⟨(t, d) :: ext, ?_, ?_, ?_⟩
      · rw [h1]
        simp
      · simpa using h2.cons₂ t
      · exact (perm_cons_eraseIdx hget).trans ((h3.cons d).trans (by simp))

/-- C10: `_match_detections_to_tracks` partitions its input: the detections
assigned across all matched tracks together with the returned unmatched list
are a permutation of the input list (no detection duplicated, dropped or
invented), and the matched tracks form a sublist of the registry (so each
live track is assigned at most one detection per frame). -/
theorem matching_partition (cfg : TrackerConfig) (tracks : List TrackedObject)
    (detections : List Detection) :
    detections.Perm
      ((match_detections_to_tracks cfg tracks detections).1.map Prod.snd ++
        (match_detections_to_tracks cfg tracks detections).2) ∧
    ((match_detections_to_tracks cfg tracks detections).1.map Prod.fst).Sublist
      tracks := by
  obtain ⟨ext, h1, h2, h3⟩ := matchfold_spec cfg tracks ([], detections)
  unfold match_detections_to_tracks
  rw [h1]
  exact ⟨by simpa using h3, by simpa using h2⟩

lemma foldl_create_new_track (enc : ℕ → ℕ → String) (frame : Image) (n : ℕ) :
    ∀ (ds : List Detection) (s : TrackerState),
      ds.foldl (fun st d => create_new_track enc st d frame n) s =
        ⟨s.tracked_objects ++ newTracks ds n s.next_id,
         s.unique_detections ++ newRecords enc frame n ds s.next_id,
         s.next_id + ds.length⟩ := by
  intro ds
  induction ds with
  | nil =>
    intro s
    cases s
    simp [newTracks, newRecords]
  | cons d ds ih =>
    intro s
    rw [List.foldl_cons]
    have hstep : create_new_track enc s d frame n =
        ⟨s.tracked_objects ++ [newTrackFor d n s.next_id],
         s.unique_detections ++ [create_unique_detection_record enc d frame n s.next_id],
         s.next_id + 1⟩ := rfl
    rw [hstep, ih]
    simp only [newTracks, newRecords, List.length_cons, List.range'_succ,
      List.zipWith_cons_cons]
    simp only [TrackerState.mk.injEq]
    refine ⟨?_, ?_, ?_⟩
    · simp [List.append_assoc]
    · simp [List.append_assoc]
    · omega

/-- C1: the matching step folds over the live tracks in stable registry
order (definitionally), skipping tracks with empty history; for each track
with nonempty history the selected candidate, when one exists, is an eligible
unmatched detection of minimal combined score (computed against the track's
most recent bbox and centroid only, as `calculate_iou` /
`calculate_center_distance` read only `getLast?`), it is removed from the
unmatched pool at its index, and when no eligible candidate exists none is
selected; every detection left unmatched spawns a brand-new track, one fresh
id being issued per unmatched detection. -/
theorem greedy_match_selection (cfg : TrackerConfig) (t : TrackedObject)
    (acc : List (TrackedObject × Detection) × List Detection)
    (pool : List Detection) (enc : ℕ → ℕ → String) (s : TrackerState)
    (dets : List Detection) (frame : Image) (n : ℕ) :
    (t.track_history = [] → matchStep cfg acc t = acc) ∧
    (t.track_history ≠ [] → findBestMatch cfg t pool = none →
      ∀ d ∈ pool, ¬ eligibleDet cfg t d) ∧
    (t.track_history ≠ [] → ∀ (i : ℕ) (d : Detection),
      findBestMatch cfg t pool = some (i, d) →
      pool[i]? = some d ∧ eligibleDet cfg t d ∧
      ∀ (k : ℕ) (dk : Detection), pool[k]? = some dk → eligibleDet cfg t dk →
        optLe (detScore cfg t d) (detScore cfg t dk)) ∧
    (t.track_history ≠ [] → ∀ (i : ℕ) (d : Detection),
      findBestMatch cfg t acc.2 = some (i, d) →
      matchStep cfg acc t = (acc.1 ++ [(t, d)], acc.2.eraseIdx i)) ∧
    (match_detections_to_tracks cfg s.tracked_objects dets =
      s.tracked_objects.foldl (matchStep cfg) ([], dets)) ∧
    ((process_frame_detections cfg enc s dets frame n).next_id =
      s.next_id +
        (match_detections_to_tracks cfg s.tracked_objects dets).2.length) := by
  have hsuf : ∀ k : ℕ, pool[k]? = pool[0 + k]? := fun k => by simp
  have hbest0 : ∀ (j : ℕ) (d : Detection), (none : Option (ℕ × Detection)) = some (j, d) →
      eligibleDet cfg t d := fun j d h => Option.noConfusion h
  have hmin0 : ∀ k : ℕ, k < 0 → ∀ dk : Detection, pool[k]? = some dk →
      eligibleDet cfg t dk → ¬ optLt (detScore cfg t dk) (none : Option ℝ) :=
    fun k hk => absurd hk (Nat.not_lt_zero k)
  refine ⟨?_, ?_, ?_, ?_, rfl, ?_⟩
  · intro h
    unfold matchStep
    rw [if_pos h]
  · intro hh hf d hd
    obtain ⟨k, hk, hdk⟩ := List.getElem_of_mem hd
    have := (findBestAux_min cfg t pool hh pool 0 none none hsuf rfl hbest0 hmin0).2
      hf k d (by rw [List.getElem?_eq_getElem hk, hdk])
    intro helig
    exact this helig
  · intro hh i d hf
    have hidx := findBestAux_index cfg t pool pool 0 none none hsuf
      (fun j d h => Option.noConfusion h) i d hf
    have hspec := (findBestAux_min cfg t pool hh pool 0 none none hsuf rfl hbest0 hmin0).1
      i d hf
    refine ⟨hidx, hspec.1, ?_⟩
    intro k dk hk helig
    have hnot := hspec.2 k dk hk helig
    obtain ⟨sd, hsd⟩ := detScore_isSome cfg (d := d) hh
    obtain ⟨sk, hsk⟩ := detScore_isSome cfg (d := dk) hh
    rw [hsd, hsk]
    rw [hsk, hsd] at hnot
    simp only [optLt] at hnot
    simpa [optLe] using not_lt.mp hnot
  · intro hh i d hf
    unfold matchStep
    rw [if_neg hh, hf]
  · unfold process_frame_detections
    dsimp only
    rw [foldl_create_new_track]

lemma wTrack_findBest : findBestMatch defaultConfig wTrack [wDet] = some (0, wDet) := by
  have helig : eligibleDet defaultConfig wTrack wDet := by
    refine Or.inl ?_
    norm_num [calculate_iou, wTrack, newTrackFor, TrackedObject.update, takeLast,
      wDet, defaultConfig, max_def, min_def]
  have hscore : optLt (detScore defaultConfig wTrack wDet) none := by
    obtain ⟨x, hx⟩ := detScore_isSome defaultConfig (d := wDet) (t := wTrack)
      (by decide)
    rw [hx]
    trivial
  show findBestAux defaultConfig wTrack [wDet] 0 none none = some (0, wDet)
  simp only [findBestAux]
  rw [if_pos ⟨helig, hscore⟩]

/-- Witness for C1: with the default thresholds, a detection identical to the
track's last box is eligible, selected with minimal score, and popped from the
pool. -/
theorem greedy_match_selection_witness :
    ([wDet][0]? = some wDet ∧ eligibleDet defaultConfig wTrack wDet ∧
      optLe (detScore defaultConfig wTrack wDet) (detScore defaultConfig wTrack wDet)) ∧
    matchStep defaultConfig ([], [wDet]) wTrack = ([(wTrack, wDet)], []) := by
  have hh : wTrack.track_history ≠ [] := by decide
  have h := greedy_match_selection defaultConfig wTrack ([], [wDet]) [wDet]
    encEmpty ⟨[], [], 0⟩ [] ⟨4, 4⟩ 0
  obtain ⟨hsel1, hsel2, hmin⟩ := h.2.2.1 hh 0 wDet wTrack_findBest
  refine ⟨⟨hsel1, hsel2, hmin 0 wDet (by rfl) hsel2⟩, ?_⟩
  have hd := h.2.2.2.1 hh 0 wDet wTrack_findBest
  simpa using hd

lemma newTracks_cons (d : Detection) (ds : List Detection) (n k0 : ℕ) :
    newTracks (d :: ds) n k0 = newTrackFor d n k0 :: newTracks ds n (k0 + 1) := by
  simp [newTracks, List.range'_succ]

lemma newRecords_cons (enc : ℕ → ℕ → String) (frame : Image) (d : Detection)
    (ds : List Detection) (n k0 : ℕ) :
    newRecords enc frame n (d :: ds) k0 =
      create_unique_detection_record enc d frame n k0 ::
        newRecords enc frame n ds (k0 + 1) := by
  simp [newRecords, List.range'_succ]

lemma newTrackFor_id (d : Detection) (n k : ℕ) : (newTrackFor d n k).id = k := by
  unfold newTrackFor TrackedObject.update
  dsimp only
  split <;> rfl

lemma newTrackFor_last_seen (d : Detection) (n k : ℕ) :
    (newTrackFor d n k).last_seen_frame = n := by
  unfold newTrackFor TrackedObject.update
  dsimp only
  split <;> rfl

lemma update_preserves_id (t : TrackedObject) (d : Detection) (n : ℕ) :
    (t.update d n).id = t.id := by
  unfold TrackedObject.update
  dsimp only
  split <;> rfl

lemma mem_newTracks (n : ℕ) :
    ∀ (ds : List Detection) (k0 : ℕ) (b : TrackedObject), b ∈ newTracks ds n k0 →
      k0 ≤ b.id ∧ b.last_seen_frame = n := by
  intro ds
  induction ds with
  | nil => intro k0 b hb; simp [newTracks] at hb
  | cons d ds ih =>
    intro k0 b hb
    rw [newTracks_cons] at hb
    rcases List.mem_cons.mp hb with rfl | hb'
    · exact ⟨le_of_eq (newTrackFor_id d n k0).symm, newTrackFor_last_seen d n k0⟩
    · obtain ⟨h1, h2⟩ := ih (k0 + 1) b hb'
      exact ⟨le_trans (Nat.le_succ k0) h1, h2⟩

lemma newRecords_map_id (enc : ℕ → ℕ → String) (frame : Image) (n : ℕ) :
    ∀ (ds : List Detection) (k0 : ℕ),
      (newRecords enc frame n ds k0).map (fun u => u.id) =
        List.range' k0 ds.length := by
  intro ds
  induction ds with
  | nil => intro k0; simp [newRecords]
  | cons d ds ih =>
    intro k0
    rw [newRecords_cons, List.map_cons, ih (k0 + 1), List.length_cons,
      List.range'_succ]
    rfl

lemma cleanup_append_fresh (cfg : TrackerConfig) (A B : List TrackedObject)
    (n k : ℕ) (hA : ∀ t ∈ A, t.id < k)
    (hB : ∀ t ∈ B, k ≤ t.id ∧ t.last_seen_frame = n) :
    cleanup_old_tracks cfg (A ++ B) n = cleanup_old_tracks cfg A n ++ B := by
  unfold cleanup_old_tracks
  have hBover : B.filter
      (fun t => decide ((n : ℤ) - (t.last_seen_frame : ℤ) > (cfg.max_missing_frames : ℤ))) = [] := by
    rw [List.filter_eq_nil_iff]
    intro b hb
    have := (hB b hb).2
    simp [this]
  dsimp only
  have hsplit : (A ++ B).filter
      (fun t => decide ((n : ℤ) - (t.last_seen_frame : ℤ) > (cfg.max_missing_frames : ℤ))) =
      A.filter
      (fun t => decide ((n : ℤ) - (t.last_seen_frame : ℤ) > (cfg.max_missing_frames : ℤ))) := by
    rw [List.filter_append, hBover, List.append_nil]
  simp only [hsplit]
  rw [List.filter_append]
  congr 1
  rw [List.filter_eq_self]
  intro b hb
  rw [decide_eq_true_eq]
  intro hmem
  obtain ⟨a, ha, haid⟩ := List.mem_map.mp hmem
  have haA : a ∈ A := List.mem_of_mem_filter ha
  have h1 : a.id < k := hA a haA
  have h2 : k ≤ b.id := (hB b hb).1
  omega

lemma process_frame_uniques (cfg : TrackerConfig) (enc : ℕ → ℕ → String)
    (s : TrackerState) (dets : List Detection) (frame : Image) (n : ℕ) :
    (process_frame_detections cfg enc s dets frame n).unique_detections =
      s.unique_detections ++
        newRecords enc frame n
          (match_detections_to_tracks cfg s.tracked_objects dets).2 s.next_id := by
  unfold process_frame_detections
  dsimp only
  rw [foldl_create_new_track]

lemma process_frame_next_id (cfg : TrackerConfig) (enc : ℕ → ℕ → String)
    (s : TrackerState) (dets : List Detection) (frame : Image) (n : ℕ) :
    (process_frame_detections cfg enc s dets frame n).next_id =
      s.next_id + (match_detections_to_tracks cfg s.tracked_objects dets).2.length := by
  unfold process_frame_detections
  dsimp only
  rw [foldl_create_new_track]

lemma process_frame_ids_invariant (cfg : TrackerConfig) (enc : ℕ → ℕ → String)
    (s : TrackerState) (dets : List Detection) (frame : Image) (n : ℕ)
    (h : s.unique_detections.map (fun u => u.id) = List.range s.next_id) :
    (process_frame_detections cfg enc s dets frame n).unique_detections.map
        (fun u => u.id) =
      List.range (process_frame_detections cfg enc s dets frame n).next_id := by
  rw [process_frame_uniques, process_frame_next_id, List.map_append, h,
    newRecords_map_id]
  rw [List.range_eq_range', List.range_eq_range']
  simpa [Nat.add_comm] using
    List.range'_append_1 0 s.next_id
      (match_detections_to_tracks cfg s.tracked_objects dets).2.length

lemma loop_ids_invariant (cfg : TrackerConfig) (enc : ℕ → ℕ → String)
    (skip total : ℕ) (clock : ℕ → ℚ) :
    ∀ (frames : List (Image × List Detection)) (n : ℕ) (s : TrackerState)
      (ps : List ProcessingProgress),
      s.unique_detections.map (fun u => u.id) = List.range s.next_id →
      ((process_video_loop cfg enc skip total clock frames n s ps).1.unique_detections.map
          (fun u => u.id) =
        List.range (process_video_loop cfg enc skip total clock frames n s ps).1.next_id) := by
  intro frames
  induction frames with
  | nil => intro n s ps h; exact h
  | cons p rest ih =>
    intro n s ps h
    obtain ⟨f, dets⟩ := p
    simp only [process_video_loop]
    by_cases hskip : n % skip ≠ 0
    · rw [if_pos hskip]
      exact ih (n + 1) s ps h
    · rw [if_neg hskip]
      exact ih (n + 1) _ _ (process_frame_ids_invariant cfg enc s dets f n h)

/-- C2: per processed frame, the unique-detection list is extended (never
rewritten): the previously accumulated records stay as an unchanged prefix,
exactly one new record is appended per unmatched detection — synchronously
with the creation of that detection's track, carrying the triggering
detection's frame number, bbox and extracted imagery and the track's fresh
id — matched-track updates and track expiry touch only the registry; over a
whole `process_video` run the emitted records' ids are exactly the issued
track ids `0, …, next_id − 1` in creation order, so exactly one record is
ever created per track and none is later mutated or regenerated. -/
theorem unique_detection_per_track (cfg : TrackerConfig) (enc : ℕ → ℕ → String)
    (s : TrackerState) (dets : List Detection) (frame : Image) (n : ℕ)
    (frames : List (Image × List Detection)) (total skip : ℕ) (clock : ℕ → ℚ) :
    ((process_frame_detections cfg enc s dets frame n).unique_detections =
      s.unique_detections ++
        newRecords enc frame n
          (match_detections_to_tracks cfg s.tracked_objects dets).2 s.next_id) ∧
    ((process_frame_detections cfg enc s dets frame n).next_id =
      s.next_id + (match_detections_to_tracks cfg s.tracked_objects dets).2.length) ∧
    ((∀ t ∈ s.tracked_objects, t.id < s.next_id) →
      (process_frame_detections cfg enc s dets frame n).tracked_objects =
        cleanup_old_tracks cfg
          (update_matched_tracks
            (match_detections_to_tracks cfg s.tracked_objects dets).1 n
            s.tracked_objects) n ++
          newTracks (match_detections_to_tracks cfg s.tracked_objects dets).2 n
            s.next_id) ∧
    (∀ (d : Detection) (k : ℕ),
      (create_unique_detection_record enc d frame n k).id = k ∧
      (create_unique_detection_record enc d frame n k).frame_number = n ∧
      (create_unique_detection_record enc d frame n k).bbox = d.bbox ∧
      (create_unique_detection_record enc d frame n k).full_frame_image_data =
        (extract_detection_images enc frame d).1 ∧
      (create_unique_detection_record enc d frame n k).frame_image_data =
        (extract_detection_images enc frame d).2) ∧
    ((process_video cfg enc frames total skip clock).1.unique_detections.map
        (fun u => u.id) =
      List.range (process_video cfg enc frames total skip clock).1.next_id) := by
  refine ⟨process_frame_uniques cfg enc s dets frame n,
    process_frame_next_id cfg enc s dets frame n, ?_,
    fun d k => ⟨rfl, rfl, rfl, rfl, rfl⟩, ?_⟩
  · intro hfresh
    unfold process_frame_detections
    dsimp only
    rw [foldl_create_new_track]
    dsimp only
    refine cleanup_append_fresh cfg _ _ n s.next_id ?_ ?_
    · intro t ht
      unfold update_matched_tracks at ht
      obtain ⟨u, hu, hut⟩ := List.mem_map.mp ht
      subst hut
      cases hfind : (match_detections_to_tracks cfg s.tracked_objects dets).1.find?
          (fun p => p.1.id = u.id) with
      | none => simp only [hfind]; exact hfresh u hu
      | some p =>
        simp only [hfind]
        rw [update_preserves_id]
        exact hfresh u hu
    · exact fun t ht => mem_newTracks n _ s.next_id t ht
  · unfold process_video process_video_run
    dsimp only
    exact loop_ids_invariant cfg enc skip total clock frames 0 ⟨[], [], 0⟩ [] (by simp)

/-- Witness for C2: on an empty registry, processing one detection at frame 0
creates exactly the one fresh track alongside its record. -/
theorem unique_detection_per_track_witness :
    (process_frame_detections defaultConfig encEmpty ⟨[], [], 0⟩ [wDet]
        ⟨1000, 1000⟩ 0).tracked_objects =
      cleanup_old_tracks defaultConfig
        (update_matched_tracks
          (match_detections_to_tracks defaultConfig
            (TrackerState.mk [] [] 0).tracked_objects [wDet]).1 0
          (TrackerState.mk [] [] 0).tracked_objects) 0 ++
        newTracks (match_detections_to_tracks defaultConfig
          (TrackerState.mk [] [] 0).tracked_objects [wDet]).2 0 0 :=
  (unique_detection_per_track defaultConfig encEmpty ⟨[], [], 0⟩ [wDet]
    ⟨1000, 1000⟩ 0 [] 0 1 clockZero).2.2.1
    (fun t ht => absurd ht (List.not_mem_nil t))

lemma loop_progress (cfg : TrackerConfig) (enc : ℕ → ℕ → String)
    (total : ℕ) (clock : ℕ → ℚ) :
    ∀ (frames : List (Image × List Detection)) (n : ℕ) (s : TrackerState)
      (ps : List ProcessingProgress),
      (process_video_loop cfg enc 1 total clock frames n s ps).2 =
        ps ++ (List.range' n frames.length).map
          (fun i => update_progress i total (clock i)) := by
  intro frames
  induction frames with
  | nil => intro n s ps; simp [process_video_loop]
  | cons p rest ih =>
    intro n s ps
    obtain ⟨f, dets⟩ := p
    simp only [process_video_loop]
    rw [if_neg (by simp [Nat.mod_one])]
    rw [ih]
    simp [List.range'_succ]

/-- C9: every emitted snapshot reports `percentage = current/total * 100` and
an estimated remaining time of `elapsed/current * (total - current)` exactly
when `current > 0` (no estimate at `current = 0`); and over a full
`frame_skip = 1` run on a video whose reported total equals the number of
frames actually read (at least one), the reported percentages are
monotonically non-decreasing and the value 100 is reported exactly once, as
the final snapshot. -/
theorem progress_reporting (current total_frames : ℕ) (elapsed : ℚ)
    (cfg : TrackerConfig) (enc : ℕ → ℕ → String)
    (frames : List (Image × List Detection)) (clock : ℕ → ℚ) :
    ((update_progress current total_frames elapsed).percentage =
      (current : ℚ) / (total_frames : ℚ) * 100) ∧
    ((update_progress current total_frames elapsed).estimated_time_remaining =
      if 0 < current then
        some (elapsed / (current : ℚ) * ((total_frames : ℚ) - (current : ℚ)))
      else none) ∧
    (frames.length = total_frames → 0 < total_frames →
      List.Chain' (· ≤ ·)
        (((process_video cfg enc frames total_frames 1 clock).2).map
          (fun p => p.percentage)) ∧
      ((((process_video cfg enc frames total_frames 1 clock).2).map
          (fun p => p.percentage)).count 100 = 1) ∧
      ((((process_video cfg enc frames total_frames 1 clock).2).map
          (fun p => p.percentage)).getLast? = some 100)) := by
  refine ⟨rfl, rfl, ?_⟩
  intro hlen hpos
  have hN : (0 : ℚ) < (total_frames : ℚ) := by exact_mod_cast hpos
  have h2 : (process_video cfg enc frames total_frames 1 clock).2 =
      (List.range (total_frames + 1)).map
        (fun i => update_progress i total_frames (clock i)) := by
    unfold process_video process_video_run
    dsimp only
    rw [loop_progress cfg enc total_frames clock frames 0 ⟨[], [], 0⟩ [],
      hlen, List.range_succ, List.map_append, List.range_eq_range']
    simp
  rw [h2, List.map_map]
  have hpct : ((fun p => p.percentage) ∘
      (fun i => update_progress i total_frames (clock i))) =
      fun i : ℕ => (i : ℚ) / (total_frames : ℚ) * 100 := rfl
  rw [hpct]
  have hinj : Function.Injective
      (fun i : ℕ => (i : ℚ) / (total_frames : ℚ) * 100) := by
    intro a b hab
    dsimp only at hab
    have : (a : ℚ) = (b : ℚ) := by
      field_simp at hab
      exact_mod_cast hab
    exact_mod_cast this
  have h100 : (total_frames : ℚ) / (total_frames : ℚ) * 100 = 100 := by
    rw [div_self (ne_of_gt hN)]
    norm_num
  refine ⟨?_, ?_, ?_⟩
  · rw [List.chain'_map, List.chain'_range_succ]
    intro m _
    gcongr
    exact Nat.le_succ m
  · have hcount := List.count_map_of_injective (List.range (total_frames + 1)) _
      hinj total_frames
    rw [h100] at hcount
    rw [hcount]
    exact List.count_eq_one_of_mem (List.nodup_range _) (by simp)
  · rw [List.getLast?_map, List.range_succ]
    rw [List.getLast?_concat]
    simpa using h100

/-- Witness for C9: a one-frame run reports percentages `[0, 100]`. -/
theorem progress_reporting_witness :
    List.Chain' (· ≤ ·)
      (((process_video defaultConfig encEmpty [(⟨4, 4⟩, [])] 1 1 clockZero).2).map
        (fun p => p.percentage)) ∧
    ((((process_video defaultConfig encEmpty [(⟨4, 4⟩, [])] 1 1 clockZero).2).map
        (fun p => p.percentage)).count 100 = 1) ∧
    ((((process_video defaultConfig encEmpty [(⟨4, 4⟩, [])] 1 1 clockZero).2).map
        (fun p => p.percentage)).getLast? = some 100) :=
  (progress_reporting 1 1 0 defaultConfig encEmpty [(⟨4, 4⟩, [])] clockZero).2.2
    rfl (by decide)
